import Mathlib

/-!
# Verification of the resubmit core of the PM whale-follower bot

Shallow embedding of the order-resubmission engine and event parsing of
`src/rust/src/main.rs`, together with the seed helpers of
`src/rust(中文)/src/resubmit_tests.rs`.

Modelling conventions:
* Rust `f64` prices, sizes and share counts are modelled as exact rationals
  (`ℚ`); `f64::round` is modelled by `rustRound` (round half away from zero).
* The tier-policy functions live in `config.rs`, which is not part of the
  provided sources; they are modelled from the spec (policy table of §3 and
  §4.1) and corroborated by the assertions of `resubmit_tests.rs`.
* The engine performs blocking HTTP submissions; each submission's result is
  supplied by an oracle list `List SubmitResult`, consumed one element per
  order actually posted.  Log lines, sleeps and wall-clock expirations are not
  observable outcomes and are omitted.
-/

/-- Rust `f64::round`: round to the nearest integer, half away from zero. -/
def rustRound (q : ℚ) : ℤ :=
  if 0 ≤ q then ⌊q + 1/2⌋ else ⌈q - 1/2⌉

/-- Two-decimal rounding `(x * 100.0).round() / 100.0` used by the seed
helpers in `resubmit_tests.rs`. -/
def round2 (x : ℚ) : ℚ := (rustRound (x * 100) : ℚ) / 100

/-- Micro-unit rounding of `submit_resubmit_order_sync` (`main.rs` 667-672):
`(x * 1_000_000.0).round() as i64` converted back via `/ 1_000_000.0`. -/
def roundMicro (x : ℚ) : ℚ := (rustRound (x * 1000000) : ℚ) / 1000000

/-- Modelled from the spec: `RESUBMIT_PRICE_INCREMENT` is a `config.rs`
constant absent from the sources; §6 gives it as the single chase tick,
typically 0.01, and every scenario of §8 and of `resubmit_tests.rs` uses
exactly one tick of 0.01. -/
def RESUBMIT_PRICE_INCREMENT : ℚ := 1/100

/-- Modelled from the spec: `get_max_resubmit_attempts` lives in the missing
`config.rs`; §3's policy table gives `max_attempts = 5` for
`whale_shares ≥ 4000` and `4` below, as asserted by
`test_max_attempts_by_tier`. -/
def get_max_resubmit_attempts (whale_shares : ℚ) : ℕ :=
  if 4000 ≤ whale_shares then 5 else 4

/-- Modelled from the spec: `should_increment_price` lives in the missing
`config.rs`; §3's chase rule is `chase_on_attempt(1) = true` for
`whale_shares ≥ 4000` and false in every other case, as asserted by
`test_tier_boundary_8000` and the other tier tests. -/
def should_increment_price (whale_shares : ℚ) (attempt : ℕ) : Bool :=
  decide (4000 ≤ whale_shares) && attempt == 1

/-- Modelled from the spec: `get_resubmit_max_buffer` lives in the missing
`config.rs`; §3's policy table gives `resubmit_buffer = 0.01` for
`whale_shares ≥ 4000` and `0.00` below, as asserted by
`test_tier_boundary_8000`. -/
def get_resubmit_max_buffer (whale_shares : ℚ) : ℚ :=
  if 4000 ≤ whale_shares then 1/100 else 0

/-- The `ResubmitRequest` record of the engine (field-for-field as constructed
in `resubmit_tests.rs` and updated in `main.rs`). -/
structure ResubmitRequest where
  token_id : String
  whale_price : ℚ
  failed_price : ℚ
  size : ℚ
  whale_shares : ℚ
  side_is_buy : Bool
  attempt : ℕ
  max_price : ℚ
  cumulative_filled : ℚ
  original_size : ℚ
  is_live : Bool
  deriving DecidableEq

/-- Result of one blocking submission, as seen by the engine after
`submit_resubmit_order_sync`: `ok success body filled_shares` models
`Ok(Ok((success, body, filled)))`, `err` models both `Ok(Err(e))` and the
`spawn_blocking` join error `Err(e)` (the engine treats both as terminal
errors with identical observable behaviour). -/
inductive SubmitResult where
  | ok (success : Bool) (body : String) (filled_shares : ℚ)
  | err (msg : String)
  deriving DecidableEq

/-- Order type chosen by `submit_resubmit_order_sync`: GTD on the last
attempt, FAK otherwise. -/
inductive OrderKind where
  | FAK
  | GTD
  deriving DecidableEq

/-- One order as handed to `submit_resubmit_order_sync` (price and size before
micro-rounding; the wire values are `roundMicro` of these). -/
structure SubmittedOrder where
  price : ℚ
  size : ℚ
  kind : OrderKind
  deriving DecidableEq

/-- Terminal outcome of handling one `ResubmitRequest`.  `Starved` marks oracle
exhaustion (the model ran out of supplied submission results) and `NoAttempt`
marks `process_resubmit_chain`'s `while` guard failing at entry. -/
inductive ChainOutcome where
  | Filled
  | Rejected
  | Aborted
  | GTDPosted
  | SubmitError
  | Starved
  | NoAttempt
  deriving DecidableEq

/-- Helper for `strContains`: whether the first list is an initial segment of
the second. -/
def listPfx : List Char → List Char → Bool
  | [], _ => true
  | _ :: _, [] => false
  | a :: as, b :: bs => a == b && listPfx as bs

/-- Helper for `strContains`: whether `pat` occurs contiguously in the second
list. -/
def listSub (pat : List Char) : List Char → Bool
  | [] => pat.isEmpty
  | c :: rest => listPfx pat (c :: rest) || listSub pat rest

/-- Rust `str::contains` with a string pattern: `hay.contains(pat)`. -/
def strContains (hay pat : String) : Bool := listSub pat.data hay.data

/-- Next-attempt price (`calculate_next_price` of `resubmit_tests.rs`; the
identical expression is inlined at `main.rs` 377-387 and 526-536). -/
def calculate_next_price (req : ResubmitRequest) : ℚ :=
  let increment := if should_increment_price req.whale_shares req.attempt then
    RESUBMIT_PRICE_INCREMENT else 0
  if req.side_is_buy then min (req.failed_price + increment) (99/100)
  else max (req.failed_price - increment) (1/100)

/-- Result of one loop iteration of the engine after an order was submitted:
either a terminal outcome, or one submitted order together with the request
for the next attempt. -/
inductive StepRes where
  | halt (orders : List SubmittedOrder) (out : ChainOutcome)
  | cont (order : SubmittedOrder) (next : ResubmitRequest)
  deriving DecidableEq

/-- The checks `process_resubmit_chain` (`main.rs` 521-546) performs before
submitting anything: the `while req.attempt <= max_attempts` guard and the
price-ceiling check `!is_last && req.side_is_buy && new_price > req.max_price`.
Returns the terminal outcome when no order is to be submitted. -/
def chain_pre (req : ResubmitRequest) : Option ChainOutcome :=
  let maxA := get_max_resubmit_attempts req.whale_shares
  if maxA < req.attempt then some ChainOutcome.NoAttempt
  else if req.attempt < maxA ∧ req.side_is_buy = true ∧
      calculate_next_price req > req.max_price then some ChainOutcome.Aborted
  else none

/-- The pre-submission check of `resubmit_worker` (`main.rs` 389-397): only the
price-ceiling check (the worker has no attempt guard — it derives
`is_last_attempt` and submits even when `attempt > max_attempts`). -/
def worker_pre (req : ResubmitRequest) : Option ChainOutcome :=
  let maxA := get_max_resubmit_attempts req.whale_shares
  if req.attempt < maxA ∧ req.side_is_buy = true ∧
      calculate_next_price req > req.max_price then some ChainOutcome.Aborted
  else none

/-- Handling of one submission result inside the loop of
`process_resubmit_chain` (`main.rs` 560-637).  Note the retry guard on HTTP
failure: `body.contains("FAK") && attempt < max_attempts`. -/
def chain_step (req : ResubmitRequest) (o : SubmitResult) : StepRes :=
  let maxA := get_max_resubmit_attempts req.whale_shares
  let new_price := calculate_next_price req
  let is_last := maxA ≤ req.attempt
  let order : SubmittedOrder :=
    ⟨new_price, req.size, if is_last then OrderKind.GTD else OrderKind.FAK⟩
  match o with
  | SubmitResult.ok true _ filled =>
    if is_last then StepRes.halt [order] ChainOutcome.GTDPosted
    else
      let remaining := req.size - filled
      if remaining > 1 ∧ filled > 0 then
        StepRes.cont order
          { req with cumulative_filled := req.cumulative_filled + filled,
                     size := remaining,
                     failed_price := new_price,
                     attempt := req.attempt + 1 }
      else StepRes.halt [order] ChainOutcome.Filled
  | SubmitResult.ok false body filled =>
    if strContains body "FAK" = true ∧ req.attempt < maxA then
      StepRes.cont order
        { req with cumulative_filled := req.cumulative_filled + filled,
                   failed_price := new_price,
                   attempt := req.attempt + 1 }
    else StepRes.halt [order] ChainOutcome.Rejected
  | SubmitResult.err _ => StepRes.halt [order] ChainOutcome.SubmitError

/-- Handling of one submission result in `resubmit_worker` (`main.rs`
413-512).  Identical to `chain_step` except on HTTP failure: the worker
re-queues whenever `attempt < max_attempts`, with no check of the response
body. -/
def worker_step (req : ResubmitRequest) (o : SubmitResult) : StepRes :=
  let maxA := get_max_resubmit_attempts req.whale_shares
  let new_price := calculate_next_price req
  let is_last := maxA ≤ req.attempt
  let order : SubmittedOrder :=
    ⟨new_price, req.size, if is_last then OrderKind.GTD else OrderKind.FAK⟩
  match o with
  | SubmitResult.ok true _ filled =>
    if is_last then StepRes.halt [order] ChainOutcome.GTDPosted
    else
      let remaining := req.size - filled
      if remaining > 1 ∧ filled > 0 then
        StepRes.cont order
          { req with cumulative_filled := req.cumulative_filled + filled,
                     size := remaining,
                     failed_price := new_price,
                     attempt := req.attempt + 1 }
      else StepRes.halt [order] ChainOutcome.Filled
  | SubmitResult.ok false _ filled =>
    if req.attempt < maxA then
      StepRes.cont order
        { req with cumulative_filled := req.cumulative_filled + filled,
                   failed_price := new_price,
                   attempt := req.attempt + 1 }
    else StepRes.halt [order] ChainOutcome.Rejected
  | SubmitResult.err _ => StepRes.halt [order] ChainOutcome.SubmitError

/-- The inline chain of `main.rs` 516-639 as a function of the submission
oracle.  `max_attempts` is computed from `req.whale_shares`, which no
continuation modifies, so recomputing it each iteration (inside `chain_pre`
and `chain_step`) is equivalent to the source's single computation before the
loop.  One oracle element is consumed per order submitted; the loop continues
exactly on `chain_step`'s `cont` results, whose `attempt` is one higher. -/
def process_resubmit_chain (req : ResubmitRequest) :
    List SubmitResult → List SubmittedOrder × ChainOutcome
  | [] =>
    (match chain_pre req with
     | some out => ([], out)
     | none => ([], ChainOutcome.Starved))
  | o :: rest =>
    match chain_pre req with
    | some out => ([], out)
    | none =>
      match chain_step req o with
      | StepRes.halt orders out => (orders, out)
      | StepRes.cont order next =>
        let r := process_resubmit_chain next rest
        (order :: r.1, r.2)

/-- One iteration of the channel-driven worker loop of `main.rs` 366-514: the
handling of a single `ResubmitRequest` received from the unbounded channel.
On every continuation (FAK partial fill, or HTTP failure with attempts
remaining) the source hands the follow-up request to
`process_resubmit_chain`, which is mirrored here. -/
def resubmit_worker (req : ResubmitRequest) (outcomes : List SubmitResult) :
    List SubmittedOrder × ChainOutcome :=
  match worker_pre req with
  | some out => ([], out)
  | none =>
    match outcomes with
    | [] => ([], ChainOutcome.Starved)
    | o :: rest =>
      match worker_step req o with
      | StepRes.halt orders out => (orders, out)
      | StepRes.cont order next =>
        let r := process_resubmit_chain next rest
        (order :: r.1, r.2)

/-- Seed of a `ResubmitRequest` after an outright FAK failure
(`should_resubmit_fak_failure` of `resubmit_tests.rs` 63-87, simulating the
order worker's failure path). -/
def should_resubmit_fak_failure (my_shares limit_price whale_shares whale_price : ℚ)
    (token_id : String) : ResubmitRequest :=
  let resubmit_buffer := get_resubmit_max_buffer whale_shares
  let max_price := min (limit_price + resubmit_buffer) (99/100)
  let rounded_size := round2 my_shares
  { token_id := token_id, whale_price := whale_price, failed_price := limit_price,
    size := rounded_size, whale_shares := whale_shares, side_is_buy := true,
    attempt := 1, max_price := max_price, cumulative_filled := 0,
    original_size := rounded_size, is_live := false }

/-- Seed of a `ResubmitRequest` after an underfill
(`should_resubmit_underfill` of `resubmit_tests.rs` 20-60, simulating the
order worker's partial-fill path).  `minShareCount` and `minCashValue` stand
for the constants `MIN_SHARE_COUNT` and `MIN_CASH_VALUE` of the missing
`config.rs`; the spec names them but fixes no values, so they are passed as
parameters here. -/
def should_resubmit_underfill (minShareCount minCashValue : ℚ)
    (filled_shares requested_shares limit_price whale_shares whale_price : ℚ)
    (token_id : String) : Option (ℚ × ResubmitRequest) :=
  if filled_shares ≥ requested_shares ∨ filled_shares ≤ 0 then none
  else
    let remaining_shares := requested_shares - filled_shares
    let min_threshold := max minShareCount (minCashValue / limit_price)
    if remaining_shares < min_threshold then none
    else
      let resubmit_buffer := get_resubmit_max_buffer whale_shares
      let max_price := min (limit_price + resubmit_buffer) (99/100)
      let rounded_size := round2 remaining_shares
      some (remaining_shares,
        { token_id := token_id, whale_price := whale_price, failed_price := limit_price,
          size := rounded_size, whale_shares := whale_shares, side_is_buy := true,
          attempt := 1, max_price := max_price, cumulative_filled := filled_shares,
          original_size := requested_shares, is_live := false })

/-! ## Event parsing (`parse_event`, `main.rs` 778-833)

The JSON deserialisation into `WsMessage` is serde's work (external); the
embedding starts from the deserialised message.  Strings are treated as their
character sequences (the payloads in question are ASCII, where Rust's byte
indexing and Lean's character indexing agree).  `U256` values are modelled as
`ℕ` and `u256_to_f64` as the exact cast into `ℚ` (its `None` branch is
unreachable: a decimal-digit string always parses as `f64`). -/

/-- The `result` object of a WebSocket log notification (fields of the serde
model used by `parse_event`). -/
structure WsResult where
  topics : List String
  data : String
  block_number : Option String
  transaction_hash : Option String
  deriving DecidableEq

/-- The `params` object of a WebSocket message. -/
structure WsParams where
  result : Option WsResult
  deriving DecidableEq

/-- A deserialised WebSocket message. -/
structure WsMessage where
  params : Option WsParams
  deriving DecidableEq

/-- The order payload of a parsed whale-fill event (`OrderInfo`). -/
structure OrderInfo where
  order_type : String
  clob_token_id : String
  usd_value : ℚ
  shares : ℚ
  price_per_share : ℚ
  deriving DecidableEq

/-- A parsed whale-fill event (`ParsedEvent`). -/
structure ParsedEvent where
  block_number : ℕ
  tx_hash : String
  order : OrderInfo
  deriving DecidableEq

/-- `hex_nibble` (`main.rs` 899-902): value of one hex digit, `none` for any
other character. -/
def hex_nibble (c : Char) : Option ℕ :=
  if '0' ≤ c ∧ c ≤ '9' then some (c.toNat - '0'.toNat)
  else if 'a' ≤ c ∧ c ≤ 'f' then some (c.toNat - 'a'.toNat + 10)
  else if 'A' ≤ c ∧ c ≤ 'F' then some (c.toNat - 'A'.toNat + 10)
  else none

/-- Big-endian value of a hex-digit sequence; `none` if any character is not a
hex digit.  The empty sequence has value 0, matching the all-'0' left padding
of `parse_u256_hex_slice_with_bytes`. -/
def hexValue : List Char → Option ℕ
  | [] => some 0
  | c :: cs =>
    match hex_nibble c, hexValue cs with
    | some d, some v => some (d * 16 ^ cs.length + v)
    | _, _ => none

/-- Rust `str::strip_prefix("0x").unwrap_or(slice)` on a character list. -/
def strip0x (cs : List Char) : List Char :=
  if listPfx ['0', 'x'] cs then cs.drop 2 else cs

/-- Rust `str::trim_start_matches("0x")`: strips every leading `0x`. -/
def trimStart0x : List Char → List Char
  | '0' :: 'x' :: rest => trimStart0x rest
  | cs => cs

/-- `parse_u256_hex_slice` (`main.rs` 839-860) restricted to the value (the
companion byte array is only used for token-id interning, which the claims do
not touch): take the byte range `a..b` of `full` (`str::get` returns `None`
out of bounds), strip one optional `0x`, refuse slices longer than 64 digits,
left-pad with '0' to 64 digits (which leaves the value unchanged) and decode
as hex. -/
def parse_u256_hex_slice (full : String) (a b : ℕ) : Option ℕ :=
  if a ≤ b ∧ b ≤ full.data.length then
    let clean := strip0x ((full.data.drop a).take (b - a))
    if 64 < clean.length then none else hexValue clean
  else none

/-- `u64::from_str_radix(s, 16)` composed with `.ok()`: `none` on an empty
digit string, a non-hex character, or u64 overflow. -/
def parseHexU64 (cs : List Char) : Option ℕ :=
  if cs.isEmpty then none
  else match hexValue cs with
    | some v => if v < 2 ^ 64 then some v else none
    | none => none

/-- ASCII lower-casing of one character (as in Rust's
`eq_ignore_ascii_case`, which only folds `A`-`Z`). -/
def asciiLower (c : Char) : Char :=
  if 'A' ≤ c ∧ c ≤ 'Z' then Char.ofNat (c.toNat + 32) else c

/-- Rust `str::eq_ignore_ascii_case`: equality after ASCII case folding. -/
def eqIgnoreCase (a b : String) : Bool :=
  a.data.map asciiLower == b.data.map asciiLower

/-- `parse_event` (`main.rs` 778-833), with Rust's `?` early returns rendered
as `Option.bind`.  `target` stands for the configuration constant
`TARGET_TOPIC_HEX` and `sig` for `ORDERS_FILLED_EVENT_SIGNATURE` (both live in
the missing `config.rs`; the claims do not depend on their values). -/
def parse_event (target sig : String) (message : WsMessage) : Option ParsedEvent :=
  message.params.bind fun ps =>
  ps.result.bind fun result =>
  if result.topics.length < 3 then none else
  if (match result.topics[2]? with
      | some t => eqIgnoreCase t target
      | none => false) = false then none else
  if result.data.data.length < 2 + 64 * 4 then none else
  (parse_u256_hex_slice result.data 2 66).bind fun maker_id =>
  (parse_u256_hex_slice result.data 66 130).bind fun taker_id =>
  (if maker_id = 0 ∧ ¬ taker_id = 0 then some (taker_id, "BUY")
   else if taker_id = 0 ∧ ¬ maker_id = 0 then some (maker_id, "SELL")
   else none).bind fun arg =>
  (parse_u256_hex_slice result.data 130 194).bind fun maker_amt =>
  (parse_u256_hex_slice result.data 194 258).bind fun taker_amt =>
  let shares : ℚ :=
    (if arg.2 = "BUY" then (taker_amt : ℚ) else (maker_amt : ℚ)) / 1000000
  if shares ≤ 0 then none else
  let usd : ℚ :=
    (if arg.2 = "BUY" then (maker_amt : ℚ) else (taker_amt : ℚ)) / 1000000
  let price := usd / shares
  let order_type :=
    match result.topics[0]? with
    | some t0 => if eqIgnoreCase t0 sig then arg.2 ++ "_FILL" else arg.2
    | none => arg.2
  some
    { block_number :=
        (result.block_number.bind (fun s => parseHexU64 (trimStart0x s.data))).getD 0,
      tx_hash := result.transaction_hash.getD "",
      order :=
        { order_type := order_type,
          clob_token_id := Nat.repr arg.1,
          usd_value := usd,
          shares := shares,
          price_per_share := price } }

/-- Follow-up request built by both engine variants after an HTTP failure
that is retried: cumulative fill accrued, `failed_price` set to the price
just tried, attempt incremented (`main.rs` 458-470 and 596-598). -/
def resubmit_next (req : ResubmitRequest) (filled : ℚ) : ResubmitRequest :=
  { req with cumulative_filled := req.cumulative_filled + filled,
             failed_price := calculate_next_price req,
             attempt := req.attempt + 1 }

/-- Log-data payload of a concrete `OrdersFilled` event: maker id 0, taker id
1 (a BUY), maker amount 2000000 micro-USD, taker amount 1000000 micro-shares,
so 1 share bought for 2 USD — price 2.0 per share. -/
def wsDataX : String :=
  "0x0000000000000000000000000000000000000000000000000000000000000000000000000000000000000000000000000000000000000000000000000000000100000000000000000000000000000000000000000000000000000000001e848000000000000000000000000000000000000000000000000000000000000f4240"

/-- A concrete WebSocket message carrying `wsDataX`, with matching topics. -/
def wsMsgX : WsMessage :=
  ⟨some ⟨some ⟨["sig", "x", "tgt"], wsDataX, none, none⟩⟩⟩

/-- The event `parse_event` produces from `wsMsgX`: 1 share at price 2.0. -/
def evtX : ParsedEvent :=
  ⟨0, "", ⟨"BUY_FILL", "1", 2, 1, 2⟩⟩

/-! ## Helper lemmas -/

/-- Evaluation rule for `rustRound` on a nonnegative argument. -/
theorem rustRound_nonneg_eq (q : ℚ) (n : ℤ) (h0 : 0 ≤ q)
    (h1 : (n : ℚ) ≤ q + 1/2) (h2 : q + 1/2 < n + 1) : rustRound q = n := by
  unfold rustRound
  rw [if_pos h0]
  exact Int.floor_eq_iff.mpr ⟨h1, by exact_mod_cast h2⟩

/-- `get_max_resubmit_attempts` is 4 or 5, hence at least 1. -/
theorem get_max_resubmit_attempts_pos (w : ℚ) : 1 ≤ get_max_resubmit_attempts w := by
  unfold get_max_resubmit_attempts
  split <;> omega

/-- `calculate_next_price` of a buy request with `failed_price ≥ 0.01` stays
inside `[0.01, 0.99]`. -/
theorem calculate_next_price_mem (req : ResubmitRequest)
    (hbuy : req.side_is_buy = true) (hfp : 1/100 ≤ req.failed_price) :
    1/100 ≤ calculate_next_price req ∧ calculate_next_price req ≤ 99/100 := by
  unfold calculate_next_price
  rw [hbuy]
  simp only [if_true]
  have hinc : (0:ℚ) ≤ if should_increment_price req.whale_shares req.attempt then
      RESUBMIT_PRICE_INCREMENT else 0 := by
    split
    · norm_num [RESUBMIT_PRICE_INCREMENT]
    · norm_num
  constructor
  · refine le_min (by linarith) (by norm_num)
  · exact min_le_right _ _

/-- A `chain_step` halt submits exactly the one order priced at
`calculate_next_price`. -/
theorem chain_step_halt (req : ResubmitRequest) (o : SubmitResult)
    (orders : List SubmittedOrder) (out : ChainOutcome)
    (h : chain_step req o = StepRes.halt orders out) :
    orders.length = 1 ∧ ∀ x ∈ orders, x.price = calculate_next_price req ∧ x.size = req.size := by
  unfold chain_step at h
  cases o <;> simp only [] at h
  case ok success body filled =>
    cases success <;> simp only [] at h <;> split_ifs at h <;>
      (try cases h) <;> simp_all
  case err msg =>
    cases h
    simp

/-- A `chain_step` continuation submits one order priced at
`calculate_next_price` and hands over a request at the next attempt with
unchanged whale size, side and ceiling, and `failed_price` set to the price
just tried. -/
theorem chain_step_cont (req : ResubmitRequest) (o : SubmitResult)
    (order : SubmittedOrder) (next : ResubmitRequest)
    (h : chain_step req o = StepRes.cont order next) :
    order.price = calculate_next_price req ∧ order.size = req.size ∧
    next.whale_shares = req.whale_shares ∧ next.side_is_buy = req.side_is_buy ∧
    next.attempt = req.attempt + 1 ∧ next.max_price = req.max_price ∧
    next.failed_price = calculate_next_price req := by
  unfold chain_step at h
  cases o <;> simp only [] at h
  case ok success body filled =>
    cases success <;> simp only [] at h <;> split_ifs at h <;>
      (try cases h) <;> simp_all
  case err msg => cases h

/-- `worker_step` analogue of `chain_step_halt`. -/
theorem worker_step_halt (req : ResubmitRequest) (o : SubmitResult)
    (orders : List SubmittedOrder) (out : ChainOutcome)
    (h : worker_step req o = StepRes.halt orders out) :
    orders.length = 1 ∧ ∀ x ∈ orders, x.price = calculate_next_price req ∧ x.size = req.size := by
  unfold worker_step at h
  cases o <;> simp only [] at h
  case ok success body filled =>
    cases success <;> simp only [] at h <;> split_ifs at h <;>
      (try cases h) <;> simp_all
  case err msg =>
    cases h
    simp

/-- `worker_step` analogue of `chain_step_cont`. -/
theorem worker_step_cont (req : ResubmitRequest) (o : SubmitResult)
    (order : SubmittedOrder) (next : ResubmitRequest)
    (h : worker_step req o = StepRes.cont order next) :
    order.price = calculate_next_price req ∧ order.size = req.size ∧
    next.whale_shares = req.whale_shares ∧ next.side_is_buy = req.side_is_buy ∧
    next.attempt = req.attempt + 1 ∧ next.max_price = req.max_price ∧
    next.failed_price = calculate_next_price req := by
  unfold worker_step at h
  cases o <;> simp only [] at h
  case ok success body filled =>
    cases success <;> simp only [] at h <;> split_ifs at h <;>
      (try cases h) <;> simp_all
  case err msg => cases h

/-- When `chain_pre` lets the loop body run, the attempt is within budget. -/
theorem chain_pre_none (req : ResubmitRequest) (h : chain_pre req = none) :
    req.attempt ≤ get_max_resubmit_attempts req.whale_shares := by
  simp only [chain_pre] at h
  split_ifs at h
  simp_all

/-- Along `process_resubmit_chain`, each continuation raises `attempt` by one
and the attempt stays within budget, so the number of submitted orders is
bounded by the remaining attempt budget. -/
theorem chain_orders_le : ∀ (outs : List SubmitResult) (req : ResubmitRequest),
    (process_resubmit_chain req outs).1.length ≤
      get_max_resubmit_attempts req.whale_shares + 1 - req.attempt
  | [], req => by
    simp only [process_resubmit_chain]
    cases h : chain_pre req <;> simp
  | o :: rest, req => by
    simp only [process_resubmit_chain]
    cases h : chain_pre req
    case some out => simp
    case none =>
      have hle := chain_pre_none req h
      cases hs : chain_step req o
      case halt orders out =>
        have := (chain_step_halt req o _ _ hs).1
        simp only []
        omega
      case cont order next =>
        have hc := chain_step_cont req o _ _ hs
        have hrec := chain_orders_le rest next
        rw [hc.2.2.1, hc.2.2.2.2.1] at hrec
        simp only [List.length_cons]
        omega

/-- Along `process_resubmit_chain` on a buy request whose `failed_price` is at
least 0.01, every submitted order is priced in `[0.01, 0.99]`. -/
theorem chain_price_mem : ∀ (outs : List SubmitResult) (req : ResubmitRequest),
    req.side_is_buy = true → 1/100 ≤ req.failed_price →
    ∀ x ∈ (process_resubmit_chain req outs).1,
      1/100 ≤ x.price ∧ x.price ≤ 99/100
  | [], req => by
    intro hbuy hfp x hx
    simp only [process_resubmit_chain] at hx
    cases h : chain_pre req <;> simp [h] at hx
  | o :: rest, req => by
    intro hbuy hfp x hx
    have hnp := calculate_next_price_mem req hbuy hfp
    simp only [process_resubmit_chain] at hx
    cases h : chain_pre req
    case some out => simp [h] at hx
    case none =>
      rw [h] at hx
      cases hs : chain_step req o
      case halt orders out =>
        rw [hs] at hx
        have hall := (chain_step_halt req o _ _ hs).2 x hx
        rw [hall.1]
        exact hnp
      case cont order next =>
        rw [hs] at hx
        have hc := chain_step_cont req o _ _ hs
        simp only [List.mem_cons] at hx
        rcases hx with rfl | hx
        · rw [hc.1]; exact hnp
        · exact chain_price_mem rest next (by rw [hc.2.2.2.1]; exact hbuy)
            (by rw [hc.2.2.2.2.2.2]; exact hnp.1) x hx

/-- `roundMicro` keeps a price inside `[0.01, 0.99]` (the bounds are exact
multiples of one micro-unit). -/
theorem roundMicro_mem (p : ℚ) (h1 : 1/100 ≤ p) (h2 : p ≤ 99/100) :
    1/100 ≤ roundMicro p ∧ roundMicro p ≤ 99/100 := by
  have h0 : (0:ℚ) ≤ p * 1000000 := by nlinarith
  have hlo : (10000:ℤ) ≤ ⌊p * 1000000 + 1/2⌋ := Int.le_floor.mpr (by push_cast; nlinarith)
  have hhi : ⌊p * 1000000 + 1/2⌋ ≤ 990000 := by
    have : ⌊p * 1000000 + 1/2⌋ < 990001 := Int.floor_lt.mpr (by push_cast; nlinarith)
    omega
  unfold roundMicro rustRound
  rw [if_pos h0]
  constructor
  · rw [le_div_iff₀ (by norm_num : (0:ℚ) < 1000000)]
    have : ((10000:ℤ):ℚ) ≤ (⌊p * 1000000 + 1/2⌋ : ℚ) := by exact_mod_cast hlo
    linarith
  · rw [div_le_iff₀ (by norm_num : (0:ℚ) < 1000000)]
    have : ((⌊p * 1000000 + 1/2⌋ : ℤ) : ℚ) ≤ ((990000:ℤ):ℚ) := by exact_mod_cast hhi
    push_cast at this ⊢
    linarith

/-! ## Claim theorems -/

/-- C8: `should_increment_price(w, n)` returns true if and only if `w ≥ 4000`
and `n = 1` — the price is raised by one increment only on the first attempt
for whales of at least 4000 shares, and never otherwise. -/
theorem chase_rule_iff (w : ℚ) (n : ℕ) :
    should_increment_price w n = true ↔ (4000 ≤ w ∧ n = 1) := by
  simp [should_increment_price]

/-- C7: an underfill produces a `ResubmitRequest` if and only if
`0 < filled < requested` and the remainder is at least
`max(MIN_SHARE_COUNT, MIN_CASH_VALUE / limit_price)`; in particular a full or
over fill, a zero fill, or a remainder below the threshold produce none. -/
theorem underfill_gate_iff (msc mcv filled requested L w wp : ℚ) (tid : String)
    (_hL : 0 < L) :
    (should_resubmit_underfill msc mcv filled requested L w wp tid).isSome = true ↔
      (0 < filled ∧ filled < requested ∧ max msc (mcv / L) ≤ requested - filled) := by
  simp only [should_resubmit_underfill]
  split_ifs with h1 h2
  · simp only [Option.isSome_none, Bool.false_eq_true, false_iff]
    rintro ⟨hf, hfr, -⟩
    rcases h1 with h | h <;> linarith
  · simp only [Option.isSome_none, Bool.false_eq_true, false_iff]
    rintro ⟨-, -, hth⟩
    linarith
  · simp only [Option.isSome_some, true_iff]
    push_neg at h1 h2
    exact ⟨by linarith [h1.2], by linarith [h1.1], by linarith⟩

/-- C7 witness: the gate evaluated at a positive limit price. -/
theorem underfill_gate_iff_witness :
    (0:ℚ) < 1/2 ∧
      ((should_resubmit_underfill 1 (101/100) 60 100 (1/2) 1250 (12/25) "tok").isSome = true ↔
        ((0:ℚ) < 60 ∧ (60:ℚ) < 100 ∧ max (1:ℚ) ((101/100) / (1/2)) ≤ 100 - 60)) :=
  ⟨by norm_num, underfill_gate_iff 1 (101/100) 60 100 (1/2) 1250 (12/25) "tok" (by norm_num)⟩

/-- C6: a FAK failure seeds a request with `size = round2(N)`, `attempt = 1`,
`failed_price = L`, `cumulative_filled = 0`, `original_size = round2(N)`; an
underfill that seeds a request gives it `size = round2(requested − filled)`,
`failed_price = L` and `cumulative_filled = filled`. -/
theorem seed_request_fields :
    (∀ (N L w wp : ℚ) (tid : String),
      (should_resubmit_fak_failure N L w wp tid).size = round2 N ∧
      (should_resubmit_fak_failure N L w wp tid).attempt = 1 ∧
      (should_resubmit_fak_failure N L w wp tid).failed_price = L ∧
      (should_resubmit_fak_failure N L w wp tid).cumulative_filled = 0 ∧
      (should_resubmit_fak_failure N L w wp tid).original_size = round2 N) ∧
    (∀ (msc mcv filled requested L w wp : ℚ) (tid : String) (rem : ℚ)
        (r : ResubmitRequest),
      should_resubmit_underfill msc mcv filled requested L w wp tid = some (rem, r) →
      r.size = round2 (requested - filled) ∧ r.failed_price = L ∧
        r.cumulative_filled = filled) := by
  constructor
  · intro N L w wp tid
    exact ⟨rfl, rfl, rfl, rfl, rfl⟩
  · intro msc mcv filled requested L w wp tid rem r h
    simp only [should_resubmit_underfill] at h
    split_ifs at h
    simp only [Option.some.injEq, Prod.mk.injEq] at h
    rw [← h.2]
    exact ⟨rfl, rfl, rfl⟩

/-- C6 witness: the seed helpers evaluated at a concrete underfill (60 of 100
shares filled at limit 0.50) and a concrete FAK failure. -/
theorem seed_request_fields_witness :
    should_resubmit_underfill 1 (101/100) 60 100 (1/2) 1250 (12/25) "tok" =
      some (40, ⟨"tok", 12/25, 1/2, 40, 1250, true, 1, 1/2, 60, 100, false⟩) ∧
    ((⟨"tok", 12/25, 1/2, 40, 1250, true, 1, 1/2, 60, 100, false⟩ : ResubmitRequest).size =
        round2 (100 - 60) ∧
      (⟨"tok", 12/25, 1/2, 40, 1250, true, 1, 1/2, 60, 100, false⟩ : ResubmitRequest).failed_price =
        1/2 ∧
      (⟨"tok", 12/25, 1/2, 40, 1250, true, 1, 1/2, 60, 100, false⟩ : ResubmitRequest).cumulative_filled =
        60) ∧
    (should_resubmit_fak_failure 100 (1/2) 1000 (12/25) "tok").size = round2 100 := by
  have hsome : should_resubmit_underfill 1 (101/100) 60 100 (1/2) 1250 (12/25) "tok" =
      some (40, ⟨"tok", 12/25, 1/2, 40, 1250, true, 1, 1/2, 60, 100, false⟩) := by
    have hr : rustRound ((100 - 60 : ℚ) * 100) = 4000 :=
      rustRound_nonneg_eq _ 4000 (by norm_num) (by norm_num) (by norm_num)
    simp only [should_resubmit_underfill, round2, hr, get_resubmit_max_buffer, min_def]
    norm_num
  refine ⟨hsome,
    seed_request_fields.2 1 (101/100) 60 100 (1/2) 1250 (12/25) "tok" 40 _ hsome,
    (seed_request_fields.1 100 (1/2) 1000 (12/25) "tok").1⟩

/-- C3: on a buy-side attempt that is not the last, a computed `new_price`
above `max_price` terminates both engine variants in `Aborted` with no order
submitted; the final attempt skips the ceiling check, so whenever a
submission result is available the GTD order is submitted regardless of
`new_price` versus `max_price`. -/
theorem ceiling_skip_last_attempt (req : ResubmitRequest) (outs : List SubmitResult)
    (hbuy : req.side_is_buy = true) :
    (req.attempt < get_max_resubmit_attempts req.whale_shares →
      calculate_next_price req > req.max_price →
        process_resubmit_chain req outs = ([], ChainOutcome.Aborted) ∧
        resubmit_worker req outs = ([], ChainOutcome.Aborted)) ∧
    (req.attempt = get_max_resubmit_attempts req.whale_shares →
      ∀ (o : SubmitResult) (rest : List SubmitResult), outs = o :: rest →
        (process_resubmit_chain req outs).1 =
          [⟨calculate_next_price req, req.size, OrderKind.GTD⟩] ∧
        (resubmit_worker req outs).1 =
          [⟨calculate_next_price req, req.size, OrderKind.GTD⟩]) := by
  constructor
  · intro hlt hgt
    have hcpre : chain_pre req = some ChainOutcome.Aborted := by
      simp only [chain_pre]
      rw [if_neg (by omega), if_pos ⟨hlt, hbuy, hgt⟩]
    have hwpre : worker_pre req = some ChainOutcome.Aborted := by
      simp only [worker_pre]
      rw [if_pos ⟨hlt, hbuy, hgt⟩]
    constructor
    · cases outs <;> simp [process_resubmit_chain, hcpre]
    · simp [resubmit_worker, hwpre]
  · intro heq o rest houts
    subst houts
    have hlast : get_max_resubmit_attempts req.whale_shares ≤ req.attempt :=
      le_of_eq heq.symm
    have hnlt : ¬ req.attempt < get_max_resubmit_attempts req.whale_shares := by omega
    have hcpre : chain_pre req = none := by
      simp only [chain_pre]
      rw [if_neg (by omega), if_neg (by rintro ⟨h, -, -⟩; omega)]
    have hwpre : worker_pre req = none := by
      simp only [worker_pre]
      rw [if_neg (by rintro ⟨h, -, -⟩; omega)]
    have hcs : ∀ s : StepRes, s = chain_step req o ∨ s = worker_step req o →
        s = StepRes.halt [⟨calculate_next_price req, req.size, OrderKind.GTD⟩]
              ChainOutcome.GTDPosted ∨
        s = StepRes.halt [⟨calculate_next_price req, req.size, OrderKind.GTD⟩]
              ChainOutcome.Rejected ∨
        s = StepRes.halt [⟨calculate_next_price req, req.size, OrderKind.GTD⟩]
              ChainOutcome.SubmitError := by
      rintro s (rfl | rfl) <;>
        (cases o with
         | ok success body filled =>
           cases success
           · simp [chain_step, worker_step, hlast, hnlt]
           · simp [chain_step, worker_step, hlast]
         | err m => simp [chain_step, worker_step, hlast])
    constructor
    · simp only [process_resubmit_chain, hcpre]
      rcases hcs (chain_step req o) (Or.inl rfl) with h | h | h <;> rw [h]
    · simp only [resubmit_worker, hwpre]
      rcases hcs (worker_step req o) (Or.inr rfl) with h | h | h <;> rw [h]

/-- C3 witness: a concrete over-ceiling abort (whale 8000, chase from 0.53
past `max_price` 0.53 on attempt 1, scenario S4) via the first part of the
theorem. -/
theorem ceiling_skip_last_attempt_witness :
    ((⟨"t", 1/2, 53/100, 100, 8000, true, 1, 53/100, 0, 100, false⟩ :
        ResubmitRequest).attempt < get_max_resubmit_attempts (8000:ℚ) ∧
      calculate_next_price
          ⟨"t", 1/2, 53/100, 100, 8000, true, 1, 53/100, 0, 100, false⟩ > 53/100) ∧
    process_resubmit_chain ⟨"t", 1/2, 53/100, 100, 8000, true, 1, 53/100, 0, 100, false⟩
        [] = ([], ChainOutcome.Aborted) ∧
    resubmit_worker ⟨"t", 1/2, 53/100, 100, 8000, true, 1, 53/100, 0, 100, false⟩
        [] = ([], ChainOutcome.Aborted) := by
  have hlt : (⟨"t", 1/2, 53/100, 100, 8000, true, 1, 53/100, 0, 100, false⟩ :
      ResubmitRequest).attempt < get_max_resubmit_attempts (8000:ℚ) := by
    norm_num [get_max_resubmit_attempts]
  have hgt : calculate_next_price
      ⟨"t", 1/2, 53/100, 100, 8000, true, 1, 53/100, 0, 100, false⟩ > 53/100 := by
    norm_num [calculate_next_price, should_increment_price, RESUBMIT_PRICE_INCREMENT, min_def]
  exact ⟨⟨hlt, hgt⟩,
    (ceiling_skip_last_attempt _ [] rfl).1 hlt hgt⟩

/-- C4: a logical intent seeded at `attempt = 1` submits at most
`max_resubmit_attempts(whale_shares)` orders in either engine variant (the
model is total, and every continuation raises the attempt counter by one). -/
theorem max_attempts_bound (req : ResubmitRequest) (outs : List SubmitResult)
    (h1 : req.attempt = 1) :
    (process_resubmit_chain req outs).1.length ≤
      get_max_resubmit_attempts req.whale_shares ∧
    (resubmit_worker req outs).1.length ≤
      get_max_resubmit_attempts req.whale_shares := by
  have hpos := get_max_resubmit_attempts_pos req.whale_shares
  constructor
  · have := chain_orders_le outs req
    omega
  · simp only [resubmit_worker]
    cases hw : worker_pre req
    case some out => simp
    case none =>
      cases outs with
      | nil => simp
      | cons o rest =>
        simp only []
        cases hs : worker_step req o
        case halt orders out =>
          have := (worker_step_halt req o _ _ hs).1
          simp only []
          omega
        case cont order next =>
          have hc := worker_step_cont req o _ _ hs
          have hrec := chain_orders_le rest next
          rw [hc.2.2.1, hc.2.2.2.2.1, h1] at hrec
          simp only [List.length_cons]
          omega

/-- C4 witness: a full 4-attempt small-whale run (scenario S2-like: all-FAK
failures with FAK bodies) stays within the 4-order budget. -/
theorem max_attempts_bound_witness :
    (⟨"t", 1/2, 1/2, 10, 800, true, 1, 1/2, 0, 10, false⟩ :
        ResubmitRequest).attempt = 1 ∧
    (process_resubmit_chain ⟨"t", 1/2, 1/2, 10, 800, true, 1, 1/2, 0, 10, false⟩
        [SubmitResult.ok false "FAK a" 0, SubmitResult.ok false "FAK b" 0,
         SubmitResult.ok false "FAK c" 0, SubmitResult.ok false "FAK d" 0,
         SubmitResult.ok false "FAK e" 0]).1.length ≤
      get_max_resubmit_attempts (800:ℚ) ∧
    (resubmit_worker ⟨"t", 1/2, 1/2, 10, 800, true, 1, 1/2, 0, 10, false⟩
        [SubmitResult.ok false "FAK a" 0, SubmitResult.ok false "FAK b" 0,
         SubmitResult.ok false "FAK c" 0, SubmitResult.ok false "FAK d" 0,
         SubmitResult.ok false "FAK e" 0]).1.length ≤
      get_max_resubmit_attempts (800:ℚ) :=
  ⟨rfl, max_attempts_bound _ _ rfl⟩

/-- C10: a non-final FAK attempt whose submission returns HTTP success with
zero filled shares terminates the chain (and the worker) as `Filled` with no
further submission — regardless of the remaining size — because continuation
requires both `remaining > 1` and `filled_this_attempt > 0`. -/
theorem zero_fill_terminates_success (req : ResubmitRequest) (body : String)
    (rest : List SubmitResult)
    (hlt : req.attempt < get_max_resubmit_attempts req.whale_shares)
    (hceil : ¬ (req.side_is_buy = true ∧ calculate_next_price req > req.max_price)) :
    process_resubmit_chain req (SubmitResult.ok true body 0 :: rest) =
      ([⟨calculate_next_price req, req.size, OrderKind.FAK⟩], ChainOutcome.Filled) ∧
    resubmit_worker req (SubmitResult.ok true body 0 :: rest) =
      ([⟨calculate_next_price req, req.size, OrderKind.FAK⟩], ChainOutcome.Filled) := by
  have hnl : ¬ get_max_resubmit_attempts req.whale_shares ≤ req.attempt := by omega
  have hcpre : chain_pre req = none := by
    simp only [chain_pre]
    rw [if_neg (by omega), if_neg (by rintro ⟨-, hb, hg⟩; exact hceil ⟨hb, hg⟩)]
  have hwpre : worker_pre req = none := by
    simp only [worker_pre]
    rw [if_neg (by rintro ⟨-, hb, hg⟩; exact hceil ⟨hb, hg⟩)]
  have hcs : chain_step req (SubmitResult.ok true body 0) =
      StepRes.halt [⟨calculate_next_price req, req.size, OrderKind.FAK⟩]
        ChainOutcome.Filled := by
    simp [chain_step, hnl]
  have hws : worker_step req (SubmitResult.ok true body 0) =
      StepRes.halt [⟨calculate_next_price req, req.size, OrderKind.FAK⟩]
        ChainOutcome.Filled := by
    simp [worker_step, hnl]
  constructor
  · simp only [process_resubmit_chain, hcpre, hcs]
  · simp only [resubmit_worker, hwpre, hws]

/-- C10 witness: an HTTP-success, zero-fill FAK response on a 10-share request
(remaining 10 > 1) ends the chain as `Filled` with a single order. -/
theorem zero_fill_terminates_success_witness :
    ((⟨"t", 1/2, 1/2, 10, 1000, true, 1, 1/2, 0, 10, false⟩ :
        ResubmitRequest).attempt < get_max_resubmit_attempts (1000:ℚ) ∧
      (10:ℚ) > 1) ∧
    process_resubmit_chain ⟨"t", 1/2, 1/2, 10, 1000, true, 1, 1/2, 0, 10, false⟩
        [SubmitResult.ok true "" 0] =
      ([⟨calculate_next_price ⟨"t", 1/2, 1/2, 10, 1000, true, 1, 1/2, 0, 10, false⟩,
          10, OrderKind.FAK⟩], ChainOutcome.Filled) ∧
    resubmit_worker ⟨"t", 1/2, 1/2, 10, 1000, true, 1, 1/2, 0, 10, false⟩
        [SubmitResult.ok true "" 0] =
      ([⟨calculate_next_price ⟨"t", 1/2, 1/2, 10, 1000, true, 1, 1/2, 0, 10, false⟩,
          10, OrderKind.FAK⟩], ChainOutcome.Filled) := by
  have hlt : (⟨"t", 1/2, 1/2, 10, 1000, true, 1, 1/2, 0, 10, false⟩ :
      ResubmitRequest).attempt < get_max_resubmit_attempts (1000:ℚ) := by
    norm_num [get_max_resubmit_attempts]
  have hceil : ¬ ((⟨"t", 1/2, 1/2, 10, 1000, true, 1, 1/2, 0, 10, false⟩ :
      ResubmitRequest).side_is_buy = true ∧
      calculate_next_price ⟨"t", 1/2, 1/2, 10, 1000, true, 1, 1/2, 0, 10, false⟩ >
        (1:ℚ)/2) := by
    norm_num [calculate_next_price, should_increment_price, RESUBMIT_PRICE_INCREMENT, min_def]
  exact ⟨⟨hlt, by norm_num⟩, zero_fill_terminates_success _ "" [] hlt hceil⟩

/-- C1 counterexample: on the same request (small whale, attempt 1) and the
same submission outcomes (HTTP failure with a body not containing "FAK",
twice), `resubmit_worker` submits two orders while `process_resubmit_chain`
submits one and stops — the two variants are not observationally equal. -/
theorem worker_chain_divergence_cex :
    (resubmit_worker ⟨"t", 1/2, 1/2, 10, 1000, true, 1, 1/2, 0, 10, false⟩
        [SubmitResult.ok false "NO_MATCH" 0, SubmitResult.ok false "NO_MATCH" 0]).1.length
      = 2 ∧
    (process_resubmit_chain ⟨"t", 1/2, 1/2, 10, 1000, true, 1, 1/2, 0, 10, false⟩
        [SubmitResult.ok false "NO_MATCH" 0, SubmitResult.ok false "NO_MATCH" 0]).1.length
      = 1 ∧
    resubmit_worker ⟨"t", 1/2, 1/2, 10, 1000, true, 1, 1/2, 0, 10, false⟩
        [SubmitResult.ok false "NO_MATCH" 0, SubmitResult.ok false "NO_MATCH" 0] ≠
      process_resubmit_chain ⟨"t", 1/2, 1/2, 10, 1000, true, 1, 1/2, 0, 10, false⟩
        [SubmitResult.ok false "NO_MATCH" 0, SubmitResult.ok false "NO_MATCH" 0] := by
  have hsub : strContains "NO_MATCH" "FAK" = false := by decide
  refine ⟨?_, ?_, ?_⟩ <;>
    · simp only [resubmit_worker, process_resubmit_chain, worker_pre, chain_pre,
        worker_step, chain_step, calculate_next_price, should_increment_price,
        get_max_resubmit_attempts, RESUBMIT_PRICE_INCREMENT, hsub, min_def, max_def]
      norm_num

/-- C1 (amended): whenever the request's attempt is within budget and the
leading submission outcome, if it is an HTTP failure, has a body containing
"FAK", `resubmit_worker` and `process_resubmit_chain` produce identical
submitted orders and identical terminal outcomes. -/
theorem worker_chain_agree (req : ResubmitRequest) (outs : List SubmitResult)
    (hin : req.attempt ≤ get_max_resubmit_attempts req.whale_shares)
    (hfak : ∀ (body : String) (filled : ℚ) (rest : List SubmitResult),
      outs = SubmitResult.ok false body filled :: rest →
      strContains body "FAK" = true) :
    resubmit_worker req outs = process_resubmit_chain req outs := by
  have hpre : worker_pre req = chain_pre req := by
    simp only [worker_pre, chain_pre]
    rw [if_neg (by omega : ¬ get_max_resubmit_attempts req.whale_shares < req.attempt)]
  cases outs with
  | nil =>
    simp only [resubmit_worker, process_resubmit_chain, hpre]
  | cons o rest =>
    have hstep : worker_step req o = chain_step req o := by
      cases o with
      | ok success body filled =>
        cases success
        · have hb := hfak body filled rest rfl
          simp [worker_step, chain_step, hb]
        · simp [worker_step, chain_step]
      | err m => simp [worker_step, chain_step]
    simp only [resubmit_worker, process_resubmit_chain, hpre, hstep]

/-- C1 witness: the two variants agree on a concrete FAK-body failure followed
by a success. -/
theorem worker_chain_agree_witness :
    ((⟨"t", 1/2, 1/2, 10, 1000, true, 1, 1/2, 0, 10, false⟩ :
        ResubmitRequest).attempt ≤ get_max_resubmit_attempts (1000:ℚ) ∧
      strContains "ERR_FAK_REJECTED" "FAK" = true) ∧
    resubmit_worker ⟨"t", 1/2, 1/2, 10, 1000, true, 1, 1/2, 0, 10, false⟩
        [SubmitResult.ok false "ERR_FAK_REJECTED" 0, SubmitResult.ok true "" 0] =
      process_resubmit_chain ⟨"t", 1/2, 1/2, 10, 1000, true, 1, 1/2, 0, 10, false⟩
        [SubmitResult.ok false "ERR_FAK_REJECTED" 0, SubmitResult.ok true "" 0] := by
  refine ⟨⟨by norm_num [get_max_resubmit_attempts], by decide⟩, ?_⟩
  exact worker_chain_agree _ _ (by norm_num [get_max_resubmit_attempts])
    (by rintro body filled rest h
        cases h
        decide)

/-- C2 counterexample: `resubmit_worker` performs a further submission after
an HTTP failure whose body does not contain "FAK" (attempts remaining), so
"further attempt only if the body contains FAK" fails for the engine's
channel-driven entry path. -/
theorem worker_retry_nonfak_cex :
    (resubmit_worker ⟨"w", 3/5, 3/5, 20, 2000, true, 1, 3/5, 0, 20, false⟩
        [SubmitResult.ok false "LIQUIDITY" 0, SubmitResult.err "join"]).1.length = 2 ∧
    strContains "LIQUIDITY" "FAK" = false := by
  have hsub : strContains "LIQUIDITY" "FAK" = false := by decide
  refine ⟨?_, hsub⟩
  simp only [resubmit_worker, process_resubmit_chain, worker_pre, chain_pre,
    worker_step, chain_step, calculate_next_price, should_increment_price,
    get_max_resubmit_attempts, RESUBMIT_PRICE_INCREMENT, min_def, max_def]
  norm_num

/-- C2 (amended): after an HTTP failure, `process_resubmit_chain` performs a
further attempt iff the body contains "FAK" and attempts remain, and is
otherwise terminal (`Rejected`); `resubmit_worker` performs a further attempt
iff attempts remain, regardless of body (its continuations then run through
the chain and its FAK check). -/
theorem http_failure_retry_rule (req : ResubmitRequest) (body : String) (filled : ℚ)
    (rest : List SubmitResult)
    (hin : req.attempt ≤ get_max_resubmit_attempts req.whale_shares)
    (hceil : ¬ (req.attempt < get_max_resubmit_attempts req.whale_shares ∧
      req.side_is_buy = true ∧ calculate_next_price req > req.max_price)) :
    (strContains body "FAK" = true ∧
        req.attempt < get_max_resubmit_attempts req.whale_shares →
      process_resubmit_chain req (SubmitResult.ok false body filled :: rest) =
        (⟨calculate_next_price req, req.size, OrderKind.FAK⟩ ::
            (process_resubmit_chain (resubmit_next req filled) rest).1,
          (process_resubmit_chain (resubmit_next req filled) rest).2)) ∧
    (¬ (strContains body "FAK" = true ∧
        req.attempt < get_max_resubmit_attempts req.whale_shares) →
      process_resubmit_chain req (SubmitResult.ok false body filled :: rest) =
        ([⟨calculate_next_price req, req.size,
            if get_max_resubmit_attempts req.whale_shares ≤ req.attempt then
              OrderKind.GTD else OrderKind.FAK⟩], ChainOutcome.Rejected)) ∧
    (req.attempt < get_max_resubmit_attempts req.whale_shares →
      resubmit_worker req (SubmitResult.ok false body filled :: rest) =
        (⟨calculate_next_price req, req.size, OrderKind.FAK⟩ ::
            (process_resubmit_chain (resubmit_next req filled) rest).1,
          (process_resubmit_chain (resubmit_next req filled) rest).2)) ∧
    (get_max_resubmit_attempts req.whale_shares ≤ req.attempt →
      resubmit_worker req (SubmitResult.ok false body filled :: rest) =
        ([⟨calculate_next_price req, req.size, OrderKind.GTD⟩],
          ChainOutcome.Rejected)) := by
  have hcpre : chain_pre req = none := by
    simp only [chain_pre]
    rw [if_neg (by omega), if_neg hceil]
  have hwpre : worker_pre req = none := by
    simp only [worker_pre]
    rw [if_neg hceil]
  refine ⟨?_, ?_, ?_, ?_⟩
  · rintro ⟨hb, hlt⟩
    have hstep : chain_step req (SubmitResult.ok false body filled) =
        StepRes.cont ⟨calculate_next_price req, req.size, OrderKind.FAK⟩
          (resubmit_next req filled) := by
      simp [chain_step, hb, hlt, resubmit_next, (by omega :
        ¬ get_max_resubmit_attempts req.whale_shares ≤ req.attempt)]
    simp only [process_resubmit_chain, hcpre, hstep]
  · intro hnot
    have hstep : chain_step req (SubmitResult.ok false body filled) =
        StepRes.halt [⟨calculate_next_price req, req.size,
          if get_max_resubmit_attempts req.whale_shares ≤ req.attempt then
            OrderKind.GTD else OrderKind.FAK⟩] ChainOutcome.Rejected := by
      simp only [chain_step]
      rw [if_neg hnot]
    simp only [process_resubmit_chain, hcpre, hstep]
  · intro hlt
    have hstep : worker_step req (SubmitResult.ok false body filled) =
        StepRes.cont ⟨calculate_next_price req, req.size, OrderKind.FAK⟩
          (resubmit_next req filled) := by
      simp [worker_step, hlt, resubmit_next, (by omega :
        ¬ get_max_resubmit_attempts req.whale_shares ≤ req.attempt)]
    simp only [resubmit_worker, hwpre, hstep]
  · intro hge
    have hstep : worker_step req (SubmitResult.ok false body filled) =
        StepRes.halt [⟨calculate_next_price req, req.size, OrderKind.GTD⟩]
          ChainOutcome.Rejected := by
      simp [worker_step, hge, (by omega :
        ¬ req.attempt < get_max_resubmit_attempts req.whale_shares)]
    simp only [resubmit_worker, hwpre, hstep]

/-- C2 witness: the chain's retry clause fired at a concrete FAK-body failure
with attempts remaining. -/
theorem http_failure_retry_rule_witness :
    (strContains "XFAKX" "FAK" = true ∧
      (⟨"t", 1/2, 1/2, 10, 1000, true, 1, 1/2, 0, 10, false⟩ :
        ResubmitRequest).attempt < get_max_resubmit_attempts (1000:ℚ)) ∧
    process_resubmit_chain ⟨"t", 1/2, 1/2, 10, 1000, true, 1, 1/2, 0, 10, false⟩
        [SubmitResult.ok false "XFAKX" 0] =
      (⟨calculate_next_price ⟨"t", 1/2, 1/2, 10, 1000, true, 1, 1/2, 0, 10, false⟩,
          10, OrderKind.FAK⟩ ::
          (process_resubmit_chain
            (resubmit_next ⟨"t", 1/2, 1/2, 10, 1000, true, 1, 1/2, 0, 10, false⟩ 0)
            []).1,
        (process_resubmit_chain
          (resubmit_next ⟨"t", 1/2, 1/2, 10, 1000, true, 1, 1/2, 0, 10, false⟩ 0)
          []).2) := by
  have hb : strContains "XFAKX" "FAK" = true := by decide
  have hlt : (⟨"t", 1/2, 1/2, 10, 1000, true, 1, 1/2, 0, 10, false⟩ :
      ResubmitRequest).attempt < get_max_resubmit_attempts (1000:ℚ) := by
    norm_num [get_max_resubmit_attempts]
  have hceil : ¬ ((⟨"t", 1/2, 1/2, 10, 1000, true, 1, 1/2, 0, 10, false⟩ :
      ResubmitRequest).attempt < get_max_resubmit_attempts (1000:ℚ) ∧
      (true : Bool) = true ∧
      calculate_next_price ⟨"t", 1/2, 1/2, 10, 1000, true, 1, 1/2, 0, 10, false⟩ >
        (1:ℚ)/2) := by
    norm_num [calculate_next_price, should_increment_price, RESUBMIT_PRICE_INCREMENT,
      min_def]
  exact ⟨⟨hb, hlt⟩,
    (http_failure_retry_rule _ "XFAKX" 0 [] (le_of_lt hlt) hceil).1 ⟨hb, hlt⟩⟩

/-- C5 counterexample: a buy request with `failed_price = 0.005` (inside the
claimed invariant `0 < failed_price < 1`) makes the engine submit an order
priced at 0.005 < 0.01 — the emitted price can fall below the claimed floor,
both before and after micro-rounding. -/
theorem price_below_floor_cex :
    (process_resubmit_chain ⟨"t", 1/2, 1/200, 10, 1000, true, 1, 1/2, 0, 10, false⟩
        [SubmitResult.ok true "" 0]).1 = [⟨1/200, 10, OrderKind.FAK⟩] ∧
    (1:ℚ)/200 < 1/100 ∧ roundMicro (1/200) < 1/100 := by
  refine ⟨?_, by norm_num, ?_⟩
  · simp only [process_resubmit_chain, chain_pre, chain_step, calculate_next_price,
      should_increment_price, get_max_resubmit_attempts, RESUBMIT_PRICE_INCREMENT,
      min_def, max_def]
    norm_num
  · have h : rustRound ((1:ℚ)/200 * 1000000) = 5000 :=
      rustRound_nonneg_eq _ 5000 (by norm_num) (by norm_num) (by norm_num)
    rw [roundMicro, h]
    norm_num

/-- C5 (amended): for a buy-side request whose invariants additionally give
`failed_price ≥ 0.01`, every order either engine variant submits has price in
`[0.01, 0.99]`, both as computed and after micro-rounding.  (Under only
`0 < failed_price < 1` the floor can be undercut, as the counterexample
shows; the 0.99 cap needs no extra hypothesis.) -/
theorem emitted_price_bounds (req : ResubmitRequest) (outs : List SubmitResult)
    (hbuy : req.side_is_buy = true) (_hsize : 0 < req.size)
    (_h0 : 0 < req.failed_price) (_h1 : req.failed_price < 1)
    (hfloor : 1/100 ≤ req.failed_price) :
    (∀ x ∈ (process_resubmit_chain req outs).1,
      (1/100 ≤ x.price ∧ x.price ≤ 99/100) ∧
      (1/100 ≤ roundMicro x.price ∧ roundMicro x.price ≤ 99/100)) ∧
    (∀ x ∈ (resubmit_worker req outs).1,
      (1/100 ≤ x.price ∧ x.price ≤ 99/100) ∧
      (1/100 ≤ roundMicro x.price ∧ roundMicro x.price ≤ 99/100)) := by
  constructor
  · intro x hx
    have hb := chain_price_mem outs req hbuy hfloor x hx
    exact ⟨hb, roundMicro_mem _ hb.1 hb.2⟩
  · intro x hx
    have hnp := calculate_next_price_mem req hbuy hfloor
    simp only [resubmit_worker] at hx
    cases hw : worker_pre req
    case some out => simp only [hw] at hx; simp at hx
    case none =>
      simp only [hw] at hx
      cases outs with
      | nil => simp at hx
      | cons o rest =>
        cases hs : worker_step req o
        case halt orders out =>
          simp only [hs] at hx
          have hall := (worker_step_halt req o _ _ hs).2 x hx
          rw [hall.1]
          exact ⟨hnp, roundMicro_mem _ hnp.1 hnp.2⟩
        case cont order next =>
          simp only [hs] at hx
          have hc := worker_step_cont req o _ _ hs
          simp only [List.mem_cons] at hx
          rcases hx with rfl | hx
          · rw [hc.1]
            exact ⟨hnp, roundMicro_mem _ hnp.1 hnp.2⟩
          · have hb := chain_price_mem rest next
              (by rw [hc.2.2.2.1]; exact hbuy)
              (by rw [hc.2.2.2.2.2.2]; exact hnp.1) x hx
            exact ⟨hb, roundMicro_mem _ hb.1 hb.2⟩

/-- C5 witness: the bounds hold on a concrete chase run from 0.51. -/
theorem emitted_price_bounds_witness :
    ((0:ℚ) < 10 ∧ (0:ℚ) < 51/100 ∧ (51:ℚ)/100 < 1 ∧ (1:ℚ)/100 ≤ 51/100) ∧
    (∀ x ∈ (process_resubmit_chain
        ⟨"t", 1/2, 51/100, 10, 8000, true, 1, 52/100, 0, 10, false⟩
        [SubmitResult.ok false "FAK" 0, SubmitResult.ok true "" 0]).1,
      (1/100 ≤ x.price ∧ x.price ≤ 99/100) ∧
      (1/100 ≤ roundMicro x.price ∧ roundMicro x.price ≤ 99/100)) ∧
    (∀ x ∈ (resubmit_worker
        ⟨"t", 1/2, 51/100, 10, 8000, true, 1, 52/100, 0, 10, false⟩
        [SubmitResult.ok false "FAK" 0, SubmitResult.ok true "" 0]).1,
      (1/100 ≤ x.price ∧ x.price ≤ 99/100) ∧
      (1/100 ≤ roundMicro x.price ∧ roundMicro x.price ≤ 99/100)) := by
  refine ⟨by norm_num, ?_, ?_⟩
  · exact (emitted_price_bounds _ _ rfl (by norm_num) (by norm_num) (by norm_num)
      (by norm_num)).1
  · exact (emitted_price_bounds _ _ rfl (by norm_num) (by norm_num) (by norm_num)
      (by norm_num)).2

/-- C9 (amended): whenever `parse_event` yields an event, its share count is
strictly positive and its price (`usd / shares`) is nonnegative; `parse_event`
itself enforces no upper bound on the price and no strict positivity (the
claim's `0 < price < 1` is not checked by this function, as the
counterexample shows). -/
theorem parse_event_shares_price (target sig : String) (msg : WsMessage)
    (evt : ParsedEvent) (h : parse_event target sig msg = some evt) :
    0 < evt.order.shares ∧ 0 ≤ evt.order.price_per_share := by
  simp only [parse_event, Option.bind_eq_some] at h
  obtain ⟨ps, -, result, -, h⟩ := h
  by_cases h1 : result.topics.length < 3
  · rw [if_pos h1] at h; exact absurd h (by simp)
  rw [if_neg h1] at h
  by_cases h2 : (match result.topics[2]? with
      | some t => eqIgnoreCase t target
      | none => false) = false
  · rw [if_pos h2] at h; exact absurd h (by simp)
  rw [if_neg h2] at h
  by_cases h3 : result.data.data.length < 2 + 64 * 4
  · rw [if_pos h3] at h; exact absurd h (by simp)
  rw [if_neg h3] at h
  simp only [Option.bind_eq_some] at h
  obtain ⟨maker_id, -, taker_id, -, arg, -, maker_amt, -, taker_amt, -, h⟩ := h
  by_cases hs : ((if arg.2 = "BUY" then (taker_amt : ℚ) else (maker_amt : ℚ)) / 1000000) ≤ 0
  · rw [if_pos hs] at h; exact absurd h (by simp)
  rw [if_neg hs] at h
  push_neg at hs
  injection h with h
  subst h
  refine ⟨hs, div_nonneg (div_nonneg ?_ (by norm_num)) (le_of_lt hs)⟩
  split <;> positivity

/-- Evaluation of `parse_event` on a message whose topics are
`["sig", "x", "tgt"]` and whose data decodes to maker id 0, taker id 1,
maker amount 2000000 and taker amount 1000000: it parses into `evtX`
(1 share at price 2.0). -/
theorem parse_event_eval_general (d : String)
    (h1 : parse_u256_hex_slice d 2 66 = some 0)
    (h2 : parse_u256_hex_slice d 66 130 = some 1)
    (h3 : parse_u256_hex_slice d 130 194 = some 2000000)
    (h4 : parse_u256_hex_slice d 194 258 = some 1000000)
    (hlen : ¬ d.length < 2 + 64 * 4) :
    parse_event "tgt" "sig" ⟨some ⟨some ⟨["sig", "x", "tgt"], d, none, none⟩⟩⟩ =
      some evtX := by
  have hg2 : (["sig", "x", "tgt"] : List String)[2]? = some "tgt" := by decide
  have hg0 : (["sig", "x", "tgt"] : List String)[0]? = some "sig" := by decide
  have heq2 : eqIgnoreCase "tgt" "tgt" = true := by decide
  have heq0 : eqIgnoreCase "sig" "sig" = true := by decide
  have hrepr : Nat.repr 1 = "1" := by decide
  have happ : "BUY" ++ "_FILL" = "BUY_FILL" := by decide
  norm_num [parse_event, hg2, heq2, hlen, happ, h1, h2, h3, h4, hg0, heq0, hrepr, evtX]

set_option maxRecDepth 8192 in
/-- Evaluation of `parse_event` on the concrete message `wsMsgX`. -/
theorem parse_event_wsMsgX_eval : parse_event "tgt" "sig" wsMsgX = some evtX :=
  parse_event_eval_general wsDataX (by decide) (by decide) (by decide) (by decide)
    (by decide)

/-- C9 counterexample: `parse_event` accepts the concrete message `wsMsgX`
and yields an event whose price per share is 2.0 — not strictly below 1 — so
`parse_event` does not restrict prices to (0, 1). -/
theorem parse_event_price_cex :
    parse_event "tgt" "sig" wsMsgX = some evtX ∧
    ¬ evtX.order.price_per_share < 1 :=
  ⟨parse_event_wsMsgX_eval, by norm_num [evtX]⟩

/-- C9 witness: the amended positivity bounds at the concrete message
`wsMsgX`. -/
theorem parse_event_shares_price_witness :
    parse_event "tgt" "sig" wsMsgX = some evtX ∧
    0 < evtX.order.shares ∧ 0 ≤ evtX.order.price_per_share :=
  ⟨parse_event_wsMsgX_eval,
    parse_event_shares_price "tgt" "sig" wsMsgX evtX parse_event_wsMsgX_eval⟩
